import Mathlib

/-!
Shallow embedding of the path-confinement and directory-listing core of
`src/ninjacloud.go` (package main of Ninja Go Local Cloud), together with
theorems settling the specification claims about it.

Modelling conventions:
* Go strings are Lean `String`s, manipulated through their `List Char` data
  so that everything reduces in the kernel.
* The host OS is modelled as unix (`runtime.GOOS != "windows"`): all paths in
  the claims use forward slashes, and `filepath.HasPrefix` on unix is plain
  `strings.HasPrefix`.
* Go `int64` values are Lean `Int`s; where Go arithmetic can wrap, the
  wraparound is made explicit with `wrap64`.
* Go `error` values relevant here are modelled by `goErr`: the sentinel
  `os.ErrNotExist` is a distinct value from the `*os.PathError` values that
  `ioutil.ReadDir`/`os.Stat` actually produce, because the source compares
  errors with `==` (identity), not `os.IsNotExist`.
-/

namespace NinjaCloud

/-- Go error values as compared by `==` in the source: `*os.PathError`
wrapping ENOENT, any other `*os.PathError`, and the sentinel
`os.ErrNotExist`. Two distinct values never compare equal under Go `==`. -/
inductive goErr where
  | pathErrNotExist
  | pathErrOther
  | errNotExist
deriving DecidableEq

/-! ## String helpers (models of Go stdlib functions used by the source) -/

/-- Model of `strings.HasPrefix(s, pre)` over the character lists. -/
def strHasPre : List Char → List Char → Bool
  | [], _ => true
  | _ :: _, [] => false
  | p :: ps, c :: cs => p == c && strHasPre ps cs

/-- Model of `strings.HasPrefix(s, pre)`. -/
def goHasPre (s pre : String) : Bool := strHasPre pre.data s.data

/-- Helper for `goSplit`: splits a character list on a separator char. -/
def splitCharAux (sep : Char) : List Char → List Char → List String
  | [], cur => [String.mk cur.reverse]
  | c :: cs, cur =>
    if c == sep then String.mk cur.reverse :: splitCharAux sep cs []
    else splitCharAux sep cs (c :: cur)

/-- Model of `strings.Split(s, sep)` for a one-character separator.
Note `strings.Split("", sep) = [""]` in Go, matched here. -/
def goSplit (s : String) (sep : Char) : List String := splitCharAux sep s.data []

/-- Source `sliceContains` (ninjacloud.go:55-62): linear membership scan. -/
def sliceContains (s : List String) (c : String) : Bool :=
  s.any (fun e => c == e)

/-- Helper for `goExt`: walks the reversed name collecting the extension. -/
def extAux : List Char → List Char → Option String
  | [], _ => none
  | c :: rest, acc =>
    if c == '.' then some (String.mk (c :: acc))
    else if c == '/' then none
    else extAux rest (c :: acc)

/-- Model of `path/filepath.Ext(name)`: the suffix starting at the final dot
in the final slash-separated element; empty if there is no dot. -/
def goExt (s : String) : String := (extAux s.data.reverse []).getD ""

/-- Decimal digit string for a natural number (model of Go decimal
formatting for nonnegative values). -/
def natDigits : Nat → List Char
  | n => Nat.toDigits 10 n

/-- Model of `strconv.FormatInt(i, 10)`. -/
def formatInt (i : Int) : String :=
  if i < 0 then String.mk ('-' :: natDigits i.natAbs) else String.mk (natDigits i.natAbs)

/-- Source timestamp rendering (ninjacloud.go:230-231 and 253-254):
`strconv.FormatInt(t, 10)` followed by `modTime[:len(modTime)-6]`, dropping
the last six characters.  Go panics when the rendered string is shorter than
six characters (i.e. |t| < 100000); the model totalises that case to `""`,
and every concrete input used below keeps the rendered string long enough
that model and source agree. -/
def formatModTime (t : Int) : String :=
  let s := formatInt t
  String.mk (s.data.take (s.data.length - 6))

/-! ## filepath.Clean and the PathGuard functions -/

/-- Segment processing of `path/filepath.Clean`: `out` is the reversed stack
of emitted segments; empty and `"."` segments are dropped; `".."` pops a
segment when possible, is dropped at the root of a rooted path, and is kept
for an unrooted path with nothing to pop. -/
def cleanSegsAux (rooted : Bool) : List String → List String → List String
  | out, [] => out
  | out, s :: rest =>
    if s == "" || s == "." then cleanSegsAux rooted out rest
    else if s == ".." then
      match out with
      | o :: out' =>
        if o == ".." then cleanSegsAux rooted (".." :: o :: out') rest
        else cleanSegsAux rooted out' rest
      | [] =>
        if rooted then cleanSegsAux rooted [] rest
        else cleanSegsAux rooted [".."] rest
    else cleanSegsAux rooted (s :: out) rest

/-- Joins segments with `/`. -/
def joinSegs : List String → String
  | [] => ""
  | [s] => s
  | s :: rest => s ++ "/" ++ joinSegs rest

/-- Model of `path/filepath.Clean` on unix: lexical normalisation resolving
`.` and `..` segments and collapsing redundant separators. -/
def cleanPath (p : String) : String :=
  if p == "" then "."
  else
    let rooted := goHasPre p "/"
    let segs := goSplit p '/'
    let body := joinSegs (cleanSegsAux rooted [] segs).reverse
    if rooted then
      if body == "" then "/" else "/" ++ body
    else
      if body == "" then "." else body

/-- Source `osPath` (ninjacloud.go:272-280), unix branch.  The source calls
`filepath.Clean(p)` but discards its result (the statement has no
assignment), then prepends a single `/`; the discarded call is kept here as
a dead binding to mirror the source. -/
def osPath (p : String) : String :=
  let _ := cleanPath p
  "/" ++ p

/-- Source `isInRoot` (ninjacloud.go:93-95): `filepath.HasPrefix(path,
rootFlag)`, which on unix is `strings.HasPrefix` — a plain string-prefix
test.  The global `rootFlag` is passed explicitly. -/
def isInRoot (rootFlag path : String) : Bool := goHasPre path rootFlag

/-- Modelled from the spec: the segment-aligned containment test the spec
requires of PathGuard ("prefix must align on path-segment boundaries"): the
path is the root itself or extends it past a `/` boundary.  This definition
follows the spec's words and exists only to be compared with the source's
`isInRoot`. -/
def isInRootSpec (root path : String) : Bool :=
  path == root || goHasPre path (root ++ "/")

/-! ## The entry data model (source `element`, ninjacloud.go:211-220) -/

/-- Source struct `element`: one listing entry.  Field order follows the
source (`Type`, `Name`, `Uri`, `CreationDate`, `ModifiedDate`, `Size`,
`Writable`, `Children`); `Type` is renamed `typ` because `Type` is a Lean
keyword.  Declared as an inductive because the `children` field is
recursive. -/
inductive element where
  | mk (typ name uri creationDate modifiedDate size writable : String)
       (children : List element)

def element.typ : element → String
  | .mk t _ _ _ _ _ _ _ => t

def element.name : element → String
  | .mk _ n _ _ _ _ _ _ => n

def element.uri : element → String
  | .mk _ _ u _ _ _ _ _ => u

def element.children : element → List element
  | .mk _ _ _ _ _ _ _ cs => cs

/-- Go zero value `element{}`: all string fields empty, `Children` nil.
The source appends this placeholder before every directory entry
(ninjacloud.go:233). -/
def emptyElement : element := .mk "" "" "" "" "" "" "" []

/-! ## Filesystem model -/

/-- A snapshot of the filesystem subtree under one path, as the sequence of
`ioutil.ReadDir`/`os.FileInfo` observations the listing makes: a regular
file, a readable directory with its named children in directory-read order,
or a node that the parent's `ReadDir` reported as a directory but whose own
`ReadDir` fails with the given error (e.g. deleted concurrently, or
unreadable).  `modTime` is `ModTime().UnixNano()`, `size` is `Size()`. -/
inductive FSNode where
  | file (modTime size : Int)
  | badDir (modTime size : Int) (e : goErr)
  | dir (modTime size : Int) (entries : List (String × FSNode))

/-- Model of `FileInfo.IsDir()` for a node. -/
def isDirNode : FSNode → Bool
  | .file _ _ => false
  | _ => true

/-- Model of `FileInfo.ModTime().UnixNano()` for a node. -/
def nodeModTime : FSNode → Int
  | .file t _ => t
  | .badDir t _ _ => t
  | .dir t _ _ => t

/-- Model of `FileInfo.Size()` for a node. -/
def nodeSize : FSNode → Int
  | .file _ s => s
  | .badDir _ s _ => s
  | .dir _ s _ => s

/-! ## Source `listDir` (ninjacloud.go:222-268) -/

mutual

/-- Source `listDir(path, recursive, filter, returnType)`.  The `path`
argument is kept for the `uri` computation; the filesystem node the path
denotes is passed alongside.  Mirrors the source line by line: the
`returnAll`/`returnFiles`/`returnDirs` flags, the `ReadDir` whose error is
returned after the (empty) loop, the placeholder `element{}` appended before
each directory entry, the early `return` with the partial named `list` when
a recursive call fails, and the filter test on `filepath.Ext` for files.
The inline match models `ioutil.ReadDir(path)` on the node the path
denotes: a regular file yields a `*PathError` (ENOTDIR), a broken
directory its own error — never the sentinel `os.ErrNotExist` — and the
loop over a failed read's nil slice does nothing, so the named returns are
`(nil, err)`. -/
def listDir (node : FSNode) (path : String) (recursive : Bool)
    (filter : List String) (returnType : String) : List element × Option goErr :=
  match node with
  | .file _ _ => ([], some goErr.pathErrOther)
  | .badDir _ _ e => ([], some e)
  | .dir _ _ entries => listLoop entries path recursive filter returnType []

/-- The body of `listDir`'s `for _, d := range currentDir` loop, with `acc`
the named return slice `list` built so far. -/
def listLoop (entries : List (String × FSNode)) (path : String) (recursive : Bool)
    (filter : List String) (returnType : String) (acc : List element) :
    List element × Option goErr :=
  let returnAll := returnType == "all" || returnType == ""
  let returnFiles := returnType == "files" || returnAll
  let returnDirs := returnType == "directories" || returnAll
  match entries with
  | [] => (acc, none)
  | (name, child) :: rest =>
    if isDirNode child && returnDirs then
      let modTime := formatModTime (nodeModTime child)
      let uri := cleanPath (path ++ "/" ++ name)
      let acc1 := acc ++ [emptyElement]
      if recursive then
        match listDir child uri recursive filter returnType with
        | (cs, none) =>
          listLoop rest path recursive filter returnType
            (acc1 ++ [element.mk "directory" name uri modTime modTime
                        (formatInt (nodeSize child)) "true" cs])
        | (_, some e) => (acc1, some e)
      else
        listLoop rest path recursive filter returnType
          (acc1 ++ [element.mk "directory" name uri modTime modTime
                      (formatInt (nodeSize child)) "true" []])
    else if !isDirNode child && returnFiles then
      if sliceContains filter (goExt name) then
        listLoop rest path recursive filter returnType
          (acc ++ [element.mk "file" name (cleanPath (path ++ "/" ++ name))
                     (formatModTime (nodeModTime child))
                     (formatModTime (nodeModTime child))
                     (formatInt (nodeSize child)) "true" []])
      else listLoop rest path recursive filter returnType acc
    else listLoop rest path recursive filter returnType acc

end

/-- The contribution one directory child makes to a successful listing
call's result: the placeholder plus the directory entry (its children being
the recursive listing when `recursive`), a file entry when the extension
filter admits it, or nothing.  Used to characterise `listLoop` on success. -/
def emitOne (path : String) (recursive : Bool) (filter : List String)
    (returnType : String) : String × FSNode → List element
  | (name, child) =>
    let returnAll := returnType == "all" || returnType == ""
    let returnFiles := returnType == "files" || returnAll
    let returnDirs := returnType == "directories" || returnAll
    if isDirNode child && returnDirs then
      let modTime := formatModTime (nodeModTime child)
      let uri := cleanPath (path ++ "/" ++ name)
      [emptyElement,
       element.mk "directory" name uri modTime modTime
         (formatInt (nodeSize child)) "true"
         (if recursive then (listDir child uri recursive filter returnType).1 else [])]
    else if !isDirNode child && returnFiles then
      if sliceContains filter (goExt name) then
        [element.mk "file" name (cleanPath (path ++ "/" ++ name))
           (formatModTime (nodeModTime child)) (formatModTime (nodeModTime child))
           (formatInt (nodeSize child)) "true" []]
      else []
    else []

/-- Concatenation of the per-child contributions. -/
def emitAll (path : String) (recursive : Bool) (filter : List String)
    (returnType : String) : List (String × FSNode) → List element
  | [] => []
  | nc :: rest =>
    emitOne path recursive filter returnType nc ++
      emitAll path recursive filter returnType rest

/-- Shape invariant of every member of any `listDir` result list (partial
results after an aborted recursion included): each member is the zero-value
placeholder, a directory entry (emitted only when directories were
requested, its children empty or themselves a `listDir` result), or a file
entry (emitted only when files were requested and its extension passed the
filter, with no children). -/
def memberShape (recursive : Bool) (filter : List String) (returnType : String)
    (d : element) : Prop :=
  d = emptyElement
  ∨ (d.typ = "directory"
      ∧ (returnType = "directories" ∨ returnType = "all" ∨ returnType = "")
      ∧ (d.children = []
          ∨ ∃ n' p', d.children = (listDir n' p' recursive filter returnType).1))
  ∨ (d.typ = "file" ∧ d.children = []
      ∧ sliceContains filter (goExt d.name) = true
      ∧ (returnType = "files" ∨ returnType = "all" ∨ returnType = ""))

/-- Relation `Descendant e l`: the entry `e` occurs in the tree of entries rooted at
the list `l`, at any depth — directly, or inside some member's children. -/
inductive Descendant (e : element) : List element → Prop where
  | here (l : List element) : e ∈ l → Descendant e l
  | deeper (d : element) (l : List element) :
      d ∈ l → Descendant e d.children → Descendant e l

/-! ## stat, modifiedSince and the GET handlers -/

/-- Outcome of `os.Stat(path)`: success with the file's
`ModTime().UnixNano()` and `Size()`, failure with ENOENT, or any other
failure. -/
inductive StatRes where
  | ok (modTime size : Int)
  | enoent
  | otherErr

/-- Source `exist` (ninjacloud.go:85-91): `!os.IsNotExist(err)` — true
unless `os.Stat` failed with ENOENT. -/
def existGo : StatRes → Bool
  | .enoent => false
  | _ => true

/-- Int64 bounds and two's-complement wraparound of Go `int64` arithmetic. -/
def maxInt64 : Int := 2 ^ 63 - 1

def minInt64 : Int := -(2 ^ 63)

/-- Wraps an integer into the `int64` range the way Go arithmetic does. -/
def wrap64 (x : Int) : Int := (x + 2 ^ 63) % 2 ^ 64 - 2 ^ 63

/-- Helper for `parseIntGo`: decimal digits to a number; `none` on an empty
list or any non-digit character. -/
def digitsToNatAux : List Char → Nat → Option Nat
  | [], acc => some acc
  | c :: cs, acc =>
    if c.isDigit then digitsToNatAux cs (acc * 10 + (c.toNat - 48)) else none

/-- The value `strconv.ParseInt(s, 10, 64)` returns with its error
discarded, as the source does (ninjacloud.go:72): the parsed value when `s`
is a well-formed decimal integer in range; the clamped bound (`ErrRange`)
when out of the int64 range; and 0 (`ErrSyntax`) otherwise. -/
def parseIntGo (s : String) : Int :=
  let core : List Char → Option Int := fun ds =>
    match ds with
    | [] => none
    | _ =>
      match digitsToNatAux ds 0 with
      | none => none
      | some n => some (n : Int)
  let signed : Option Int :=
    match s.data with
    | '-' :: rest => (core rest).map (fun v => -v)
    | '+' :: rest => core rest
    | l => core l
  match signed with
  | none => 0
  | some v => if v > maxInt64 then maxInt64 else if v < minInt64 then minInt64 else v

/-- Source `modifiedSince(path, since)` (ninjacloud.go:71-83).  The
`ParseInt` error is overwritten by the `properties` (i.e. `os.Stat`) error
before it is checked, so parse failures are silently discarded; on stat
failure the function returns false; otherwise it compares the int64 product
`s * 1000000` (which wraps) against `ModTime().UnixNano()`. -/
def modifiedSince (stat : StatRes) (since : String) : Bool :=
  match stat with
  | .ok l _ => decide (wrap64 (parseIntGo since * 1000000) > l)
  | _ => false

/-- Request headers read by the directory GET handler. -/
structure DirHeaders where
  ifModifiedSince : String
  checkExistenceOnly : String
  recursiveH : String
  fileFilters : String
  returnTypeH : String

/-- Observable outcome of the directory GET handler: the 403 written before
the method switch, the raw `rootFlag` echo, a bare status code, or the
marshalled wrapper element containing the listing. -/
inductive DirGetResponse where
  | forbidden
  | rootEcho (body : String)
  | status (code : Nat)
  | listing (e : element)

/-- Request headers read by the file GET handler. -/
structure FileHeaders where
  ifModifiedSince : String
  checkExistenceOnly : String
  getFileInfo : String

/-- Observable outcome of the file GET handler. -/
inductive FileGetResponse where
  | forbidden
  | status (code : Nat)
  | infoJson (modDate size : String)
  | serveFile (p : String)

/-- Source `fileHandler` (ninjacloud.go:284-289 and the GET case at
372-416): path resolution and containment check, then the
`If-modified-since` / `check-existence-only` / `get-file-info` branches,
defaulting to `http.ServeFile`.  `stat` is the outcome `os.Stat` would give
for the resolved path. -/
def fileHandlerGet (rootFlag urlFrag : String) (stat : StatRes)
    (h : FileHeaders) : FileGetResponse :=
  let p := osPath urlFrag
  if !isInRoot rootFlag p then .forbidden
  else
    let modSince := h.ifModifiedSince
    let getInfo := h.getFileInfo
    if modSince != "" && modSince != "false" && modSince != "none" then
      if modifiedSince stat modSince then .status 200 else .status 304
    else if h.checkExistenceOnly == "true" then
      if existGo stat then .status 204 else .status 404
    else if getInfo != "" && getInfo != "false" then
      match stat with
      | .ok l sz => .infoJson (formatModTime l) (formatInt sz)
      | _ => .status 500
    else .serveFile p

/-- Source `dirHandler` (ninjacloud.go:422-427 and the GET case at
451-504): path resolution and containment check, the (dead) `p == ""`
root-echo branch, the `If-modified-since` branch with its `exist`
pre-check, the `check-existence-only` branch, and finally the listing with
`recursive`, `file-filters` (split on `;`) and `return-type` (defaulted to
"all"), mapping `err == os.ErrNotExist` to 404 and any other error to 500.
`node` is the filesystem snapshot the listing would read at `p`. -/
def dirHandlerGet (rootFlag urlFrag : String) (stat : StatRes) (node : FSNode)
    (h : DirHeaders) : DirGetResponse :=
  let p := osPath urlFrag
  if !isInRoot rootFlag p then .forbidden
  else
    let modSince := h.ifModifiedSince
    if p == "" then .rootEcho rootFlag
    else if modSince != "" && modSince != "false" && modSince != "none" then
      if !existGo stat then .status 404
      else if modifiedSince stat modSince then .status 200 else .status 304
    else if h.checkExistenceOnly == "true" then
      if existGo stat then .status 204 else .status 404
    else
      let recursive := h.recursiveH == "true"
      let filter := goSplit h.fileFilters ';'
      let returnType := if h.returnTypeH == "" then "all" else h.returnTypeH
      match listDir node p recursive filter returnType with
      | (_, some e) => if e = goErr.errNotExist then .status 404 else .status 500
      | (fileInfo, none) =>
        .listing (element.mk "directory" "root" (p ++ "/") "" "" "" "" fileInfo)

/-! ## Helper lemmas -/

/-- Function `osPath` always prepends a separator, so its result is never the empty
string. -/
theorem osPath_ne_empty (frag : String) : osPath frag ≠ "" := by
  cases frag with
  | mk data =>
    intro h
    exact List.noConfusion (congrArg String.data h)

/-- On success, the loop returns the slice built so far followed by each
child's contribution, in directory-read order. -/
theorem listLoop_ok_eq :
    ∀ (entries : List (String × FSNode)) (path : String) (recursive : Bool)
      (filter : List String) (returnType : String) (acc : List element),
      (listLoop entries path recursive filter returnType acc).2 = none →
      (listLoop entries path recursive filter returnType acc).1
        = acc ++ emitAll path recursive filter returnType entries := by
  intro entries
  induction entries with
  | nil =>
    intro path recursive filter returnType acc _
    simp [listLoop, emitAll]
  | cons nc rest ih =>
    obtain ⟨name, child⟩ := nc
    intro path recursive filter returnType acc hok
    simp only [listLoop] at hok ⊢
    simp only [emitAll, emitOne]
    split at hok
    · next hdir =>
      split at hok
      · next hrec =>
        subst hrec
        split at hok
        · next cs heq =>
          simp only [List.append_assoc, List.singleton_append] at hok
          simp [hdir, heq, ih _ _ _ _ _ hok, List.append_assoc]
        · next e heq =>
          simp at hok
      · next hrec =>
        rw [Bool.not_eq_true] at hrec
        subst hrec
        simp only [List.append_assoc, List.singleton_append] at hok
        simp [hdir, ih _ _ _ _ _ hok, List.append_assoc]
    · next hdir =>
      split at hok
      · next hfile =>
        split at hok
        · next hflt =>
          simp [hdir, hfile, hflt, ih _ _ _ _ _ hok, List.append_assoc]
        · next hflt =>
          simp [hdir, hfile, hflt, ih _ _ _ _ _ hok]
      · next hfile =>
        simp [hdir, hfile, ih _ _ _ _ _ hok]

/-- Every member of any loop result — partial results of aborted calls
included — satisfies `memberShape`. -/
theorem listLoop_mem_shape :
    ∀ (entries : List (String × FSNode)) (path : String) (recursive : Bool)
      (filter : List String) (returnType : String) (acc : List element),
      (∀ d ∈ acc, memberShape recursive filter returnType d) →
      ∀ d ∈ (listLoop entries path recursive filter returnType acc).1,
        memberShape recursive filter returnType d := by
  intro entries
  induction entries with
  | nil =>
    intro path recursive filter returnType acc hacc
    simpa [listLoop] using hacc
  | cons nc rest ih =>
    obtain ⟨name, child⟩ := nc
    intro path recursive filter returnType acc hacc
    simp only [listLoop]
    split
    · next hdir =>
      simp only [Bool.and_eq_true, Bool.or_eq_true, beq_iff_eq] at hdir
      split
      · next hrec =>
        subst hrec
        split
        · next cs heq =>
          refine ih _ _ _ _ _ ?_
          intro d hd
          rcases List.mem_append.mp hd with hd' | hd'
          · rcases List.mem_append.mp hd' with hd'' | hd''
            · exact hacc d hd''
            · rcases List.mem_singleton.mp hd''
              exact Or.inl rfl
          · rcases List.mem_singleton.mp hd'
            refine Or.inr (Or.inl ⟨rfl, ?_, Or.inr ⟨child, cleanPath (path ++ "/" ++ name), ?_⟩⟩)
            · exact hdir.2
            · simp [element.children, heq]
        · next e heq =>
          intro d hd
          rcases List.mem_append.mp hd with hd' | hd'
          · exact hacc d hd'
          · rcases List.mem_singleton.mp hd'
            exact Or.inl rfl
      · next hrec =>
        rw [Bool.not_eq_true] at hrec
        subst hrec
        refine ih _ _ _ _ _ ?_
        intro d hd
        rcases List.mem_append.mp hd with hd' | hd'
        · rcases List.mem_append.mp hd' with hd'' | hd''
          · exact hacc d hd''
          · rcases List.mem_singleton.mp hd''
            exact Or.inl rfl
        · rcases List.mem_singleton.mp hd'
          exact Or.inr (Or.inl ⟨rfl, hdir.2, Or.inl rfl⟩)
    · next hdir =>
      split
      · next hfile =>
        simp only [Bool.and_eq_true, Bool.or_eq_true, beq_iff_eq] at hfile
        split
        · next hflt =>
          refine ih _ _ _ _ _ ?_
          intro d hd
          rcases List.mem_append.mp hd with hd' | hd'
          · exact hacc d hd'
          · rcases List.mem_singleton.mp hd'
            exact Or.inr (Or.inr ⟨rfl, rfl, by simpa [element.name] using hflt, hfile.2⟩)
        · next hflt =>
          exact ih _ _ _ _ _ hacc
      · next hfile =>
        exact ih _ _ _ _ _ hacc

/-- Every member of any `listDir` result satisfies `memberShape`. -/
theorem listDir_mem_shape (node : FSNode) (path : String) (recursive : Bool)
    (filter : List String) (returnType : String) :
    ∀ d ∈ (listDir node path recursive filter returnType).1,
      memberShape recursive filter returnType d := by
  cases node with
  | file t s => simp [listDir]
  | badDir t s e => simp [listDir]
  | dir t s entries =>
    simp only [listDir]
    exact listLoop_mem_shape entries path recursive filter returnType [] (by simp)

/-- Nothing is a descendant of the empty list. -/
theorem not_descendant_nil (e : element) : ¬ Descendant e [] := by
  intro h
  cases h with
  | here l hm => exact absurd hm (List.not_mem_nil e)
  | deeper d l hm _ => exact absurd hm (List.not_mem_nil d)

/-- Any file-typed descendant of a list whose members all satisfy
`memberShape` has no children. -/
theorem descendant_file_childless :
    ∀ (l : List element) (e : element) (recursive : Bool) (filter : List String)
      (returnType : String),
      Descendant e l →
      (∀ d ∈ l, memberShape recursive filter returnType d) →
      e.typ = "file" → e.children = [] := by
  intro l e recursive filter returnType hd
  induction hd with
  | here l hm =>
    intro hshape hf
    rcases hshape e hm with h1 | h2 | h3
    · rw [h1] at hf
      exact absurd hf (by simp [emptyElement, element.typ])
    · rw [h2.1] at hf
      exact absurd hf (by simp)
    · exact h3.2.1
  | deeper d l hm hsub ih =>
    intro hshape hf
    rcases hshape d hm with h1 | h2 | h3
    · rw [h1] at hsub
      exact absurd hsub (by simpa [emptyElement, element.children] using not_descendant_nil e)
    · rcases h2.2.2 with hnil | ⟨n', p', hout⟩
      · rw [hnil] at hsub
        exact absurd hsub (not_descendant_nil e)
      · refine ih ?_ hf
        rw [hout]
        exact listDir_mem_shape n' p' recursive filter returnType
    · rw [h3.2.1] at hsub
      exact absurd hsub (not_descendant_nil e)

/-- A member of the concatenated contributions comes from some child's
contribution. -/
theorem mem_emitAll :
    ∀ (entries : List (String × FSNode)) (path : String) (recursive : Bool)
      (filter : List String) (returnType : String) (d : element),
      d ∈ emitAll path recursive filter returnType entries →
      ∃ nc ∈ entries, d ∈ emitOne path recursive filter returnType nc := by
  intro entries path recursive filter returnType
  induction entries with
  | nil => intro d hd; simp [emitAll] at hd
  | cons nc rest ih =>
    intro d hd
    simp only [emitAll] at hd
    rcases List.mem_append.mp hd with hd' | hd'
    · exact ⟨nc, List.mem_cons_self nc rest, hd'⟩
    · obtain ⟨nc', hnc', hin⟩ := ih d hd'
      exact ⟨nc', List.mem_cons_of_mem nc hnc', hin⟩

/-- A child's contribution is contained in the concatenation. -/
theorem emitOne_mem_emitAll :
    ∀ (entries : List (String × FSNode)) (path : String) (recursive : Bool)
      (filter : List String) (returnType : String) (nc : String × FSNode) (d : element),
      nc ∈ entries → d ∈ emitOne path recursive filter returnType nc →
      d ∈ emitAll path recursive filter returnType entries := by
  intro entries path recursive filter returnType nc d hnc hd
  induction entries with
  | nil => simp at hnc
  | cons nc' rest ih =>
    simp only [emitAll]
    rcases List.mem_cons.mp hnc with h | h
    · exact List.mem_append.mpr (Or.inl (h ▸ hd))
    · exact List.mem_append.mpr (Or.inr (ih h))

/-! ## Claims -/

/-- C1: the claim says the composition of `osPath` and `isInRoot` never
accepts a fragment whose lexically resolved path lies outside the root.
The code violates it: `osPath` discards the result of `filepath.Clean`
(the call on ninjacloud.go:273 is a statement whose value is dropped) and
`isInRoot` is a plain string-prefix test, so the fragment
`srv/data/../../etc/passwd` under root `/srv/data` is accepted although it
lexically resolves to `/etc/passwd`, outside the root. -/
theorem C1_traversal_escape_accepted :
    osPath "srv/data/../../etc/passwd" = "/srv/data/../../etc/passwd"
    ∧ isInRoot "/srv/data" (osPath "srv/data/../../etc/passwd") = true
    ∧ cleanPath (osPath "srv/data/../../etc/passwd") = "/etc/passwd"
    ∧ isInRootSpec "/srv/data" (cleanPath (osPath "srv/data/../../etc/passwd")) = false :=
  ⟨rfl, rfl, rfl, rfl⟩

/-- C2: the claim says containment is segment-aligned, so a sibling of the
root with the root as a string prefix (root `/srv/data`, resolved path
`/srv/data-other`) is rejected.  The code violates it: `isInRoot` is
`filepath.HasPrefix`, i.e. `strings.HasPrefix` on unix, so the sibling is
accepted, though the spec's segment-aligned test rejects it. -/
theorem C2_sibling_string_prefix_accepted :
    osPath "srv/data-other" = "/srv/data-other"
    ∧ isInRoot "/srv/data" (osPath "srv/data-other") = true
    ∧ cleanPath (osPath "srv/data-other") = "/srv/data-other"
    ∧ isInRootSpec "/srv/data" "/srv/data-other" = false :=
  ⟨rfl, rfl, rfl, rfl⟩

/-- C3: the claim says PathGuard lexically normalises the fragment
(resolving `.` and `..`) before rendering it absolute and testing
containment, and in particular accepts `a/../b` under `/srv/data` as
`/srv/data/b`.  The code violates it: `osPath` drops the result of its
`filepath.Clean` call, so nothing is ever normalised — the literal fragment
`a/../b` maps to `/a/../b` and is rejected by the prefix test, and the
root-prefixed fragment `srv/data/a/../b` maps to the unnormalised
`/srv/data/a/../b` rather than to `cleanPath`'s `/srv/data/b`. -/
theorem C3_no_lexical_normalisation :
    osPath "a/../b" = "/a/../b"
    ∧ isInRoot "/srv/data" (osPath "a/../b") = false
    ∧ osPath "srv/data/a/../b" = "/srv/data/a/../b"
    ∧ cleanPath "/srv/data/a/../b" = "/srv/data/b"
    ∧ osPath "srv/data/a/../b" ≠ cleanPath "/srv/data/a/../b" :=
  ⟨rfl, rfl, rfl, rfl, by decide⟩

/-- C4: the claim says a directory GET whose fragment resolves to exactly
the configured root (empty remainder) returns the configured root path as
a raw string.  The code violates it: the handler tests `p == ""` only
after `osPath` has already prepended `/`, so the root-echo branch can never
fire — no input at all produces a `rootEcho` response; the empty fragment
yields `p = "/"` and is rejected with 403, and a fragment resolving exactly
to the root flows into the ordinary listing branch. -/
theorem C4_root_echo_branch_dead :
    (∀ (root frag : String) (stat : StatRes) (node : FSNode) (h : DirHeaders)
        (s : String), dirHandlerGet root frag stat node h ≠ DirGetResponse.rootEcho s)
    ∧ dirHandlerGet "/srv/data" "" StatRes.enoent (FSNode.dir 0 0 [])
        ⟨"", "", "", "", ""⟩ = DirGetResponse.forbidden
    ∧ dirHandlerGet "/srv/data" "srv/data" (StatRes.ok 1500000000000000000 4096)
        (FSNode.dir 1500000000000000000 4096 []) ⟨"", "", "", "", ""⟩
      = DirGetResponse.listing (element.mk "directory" "root" "/srv/data/" "" "" "" "" []) := by
  refine ⟨?_, rfl, rfl⟩
  intro root frag stat node h s
  simp only [dirHandlerGet]
  split
  · exact fun hc => DirGetResponse.noConfusion hc
  · split
    · next hbeq => exact absurd (eq_of_beq hbeq) (osPath_ne_empty frag)
    · split
      · split
        · exact fun hc => DirGetResponse.noConfusion hc
        · split
          · exact fun hc => DirGetResponse.noConfusion hc
          · exact fun hc => DirGetResponse.noConfusion hc
      · split
        · split
          · exact fun hc => DirGetResponse.noConfusion hc
          · exact fun hc => DirGetResponse.noConfusion hc
        · split
          · split
            · exact fun hc => DirGetResponse.noConfusion hc
            · exact fun hc => DirGetResponse.noConfusion hc
          · exact fun hc => DirGetResponse.noConfusion hc

/-- C7: the claim says one listing call returns exactly the entries that
pass the filters, in read order, with no other elements interleaved.  The
code violates it: the source appends the zero value `element{}` before
every directory entry (ninjacloud.go:233), so a directory containing one
subdirectory yields a two-element list whose first member is an all-empty
placeholder entry. -/
theorem C7_placeholder_interleaved :
    (listDir (FSNode.dir 1500000000000000000 4096
        [("sub", FSNode.dir 1500000000000000000 4096 [])])
      "/srv/data" false [".txt"] "all").1
      = [emptyElement,
         element.mk "directory" "sub" "/srv/data/sub" "1500000000000"
           "1500000000000" "4096" "true" []]
    ∧ emptyElement = element.mk "" "" "" "" "" "" "" [] :=
  ⟨rfl, rfl⟩

/-- C8: every directory entry of a successful listing has its children
computed by invoking the listing again on the child's cleaned path with the
same `recursive`, `filter` and `returnType` when `recursive` is true, and
left empty otherwise. -/
theorem C8_children_by_recursion (mt sz : Int) (entries : List (String × FSNode))
    (path : String) (recursive : Bool) (filter : List String) (returnType : String)
    (e : element)
    (hok : (listDir (FSNode.dir mt sz entries) path recursive filter returnType).2 = none)
    (hmem : e ∈ (listDir (FSNode.dir mt sz entries) path recursive filter returnType).1)
    (htyp : e.typ = "directory") :
    ∃ name child, (name, child) ∈ entries ∧ isDirNode child = true ∧ e.name = name
      ∧ e.uri = cleanPath (path ++ "/" ++ name)
      ∧ e.children = (if recursive
          then (listDir child (cleanPath (path ++ "/" ++ name)) recursive filter returnType).1
          else []) := by
  simp only [listDir] at hok hmem
  rw [listLoop_ok_eq entries path recursive filter returnType [] hok] at hmem
  rw [List.nil_append] at hmem
  obtain ⟨⟨name, child⟩, hnc, hin⟩ :=
    mem_emitAll entries path recursive filter returnType e hmem
  simp only [emitOne] at hin
  split at hin
  · next hdir =>
    rcases List.mem_cons.mp hin with h | h
    · rw [h] at htyp
      exact absurd htyp (by simp [emptyElement, element.typ])
    · rcases List.mem_singleton.mp h
      refine ⟨name, child, hnc, ?_, rfl, rfl, rfl⟩
      exact (Bool.and_eq_true _ _ ▸ hdir).1
  · split at hin
    · split at hin
      · rcases List.mem_singleton.mp hin
        exact absurd htyp (by simp [element.typ])
      · simp at hin
    · simp at hin

/-- C8 witness: a concrete recursive listing of a root containing `sub`
with `sub/c.txt`, instantiating the theorem at the `sub` entry. -/
theorem C8_children_by_recursion_witness :
    ∃ name child,
      (name, child) ∈ [("sub", FSNode.dir 1500000000000000000 4096
          [("c.txt", FSNode.file 1500000000000000000 7)])]
      ∧ isDirNode child = true
      ∧ (element.mk "directory" "sub" "/srv/data/sub" "1500000000000"
          "1500000000000" "4096" "true"
          [element.mk "file" "c.txt" "/srv/data/sub/c.txt" "1500000000000"
            "1500000000000" "7" "true" []]).name = name
      ∧ (element.mk "directory" "sub" "/srv/data/sub" "1500000000000"
          "1500000000000" "4096" "true"
          [element.mk "file" "c.txt" "/srv/data/sub/c.txt" "1500000000000"
            "1500000000000" "7" "true" []]).uri = cleanPath ("/srv/data" ++ "/" ++ name)
      ∧ (element.mk "directory" "sub" "/srv/data/sub" "1500000000000"
          "1500000000000" "4096" "true"
          [element.mk "file" "c.txt" "/srv/data/sub/c.txt" "1500000000000"
            "1500000000000" "7" "true" []]).children
        = (if true
            then (listDir child (cleanPath ("/srv/data" ++ "/" ++ name)) true [".txt"] "all").1
            else []) :=
  C8_children_by_recursion 1500000000000000000 4096
    [("sub", FSNode.dir 1500000000000000000 4096
        [("c.txt", FSNode.file 1500000000000000000 7)])]
    "/srv/data" true [".txt"] "all"
    (element.mk "directory" "sub" "/srv/data/sub" "1500000000000"
      "1500000000000" "4096" "true"
      [element.mk "file" "c.txt" "/srv/data/sub/c.txt" "1500000000000"
        "1500000000000" "7" "true" []])
    rfl
    (by exact List.mem_cons_of_mem _ (List.mem_singleton.mpr rfl))
    rfl

/-- C9: every file-typed entry produced by any listing call, at any
recursion depth, has an empty children sequence. -/
theorem C9_file_entry_childless (node : FSNode) (path : String) (recursive : Bool)
    (filter : List String) (returnType : String) (e : element)
    (hd : Descendant e (listDir node path recursive filter returnType).1)
    (hf : e.typ = "file") : e.children = [] :=
  descendant_file_childless _ e recursive filter returnType hd
    (listDir_mem_shape node path recursive filter returnType) hf

/-- C9 witness: the file entry of a concrete listing has no children. -/
theorem C9_file_entry_childless_witness :
    (element.mk "file" "a.txt" "/srv/dir/a.txt" "1500000000000" "1500000000000"
      "7" "true" []).children = [] := by
  have hout : (listDir (FSNode.dir 1500000000000000000 4096
        [("a.txt", FSNode.file 1500000000000000000 7)]) "/srv/dir" false [".txt"] "all").1
      = [element.mk "file" "a.txt" "/srv/dir/a.txt" "1500000000000" "1500000000000"
          "7" "true" []] := rfl
  exact C9_file_entry_childless _ _ _ _ _ _
    (Descendant.here _ (by rw [hout]; exact List.mem_singleton.mpr rfl)) rfl

/-- C6: the claim says a failed or mid-recursion-failed listing is surfaced
as "not found" and mapped to HTTP 404 at the boundary.  The code violates
the 404 mapping: `ioutil.ReadDir` failures are `*PathError` values, never
the sentinel `os.ErrNotExist`, and `dirHandler` compares with
`err == os.ErrNotExist` (identity), so its 404 branch never fires and both
a nonexistent listing target and a depth-two recursion failure are answered
with 500.  (The abort itself does happen: the error propagates to the top
and the handler writes only a status, never a partial tree.) -/
theorem C6_notfound_surfaces_as_500 :
    (listDir (FSNode.badDir 1500000000000000000 4096 goErr.pathErrNotExist)
        "/srv/data/x" false [""] "all").2 = some goErr.pathErrNotExist
    ∧ dirHandlerGet "/srv/data" "srv/data/x" StatRes.enoent
        (FSNode.badDir 1500000000000000000 4096 goErr.pathErrNotExist)
        ⟨"", "", "", "", ""⟩ = DirGetResponse.status 500
    ∧ (listDir (FSNode.dir 1500000000000000000 4096
          [("a", FSNode.dir 1500000000000000000 4096
              [("b", FSNode.badDir 1500000000000000000 4096 goErr.pathErrNotExist)])])
        "/srv/data" true [""] "all").2 = some goErr.pathErrNotExist
    ∧ dirHandlerGet "/srv/data" "srv/data" (StatRes.ok 1500000000000000000 4096)
        (FSNode.dir 1500000000000000000 4096
          [("a", FSNode.dir 1500000000000000000 4096
              [("b", FSNode.badDir 1500000000000000000 4096 goErr.pathErrNotExist)])])
        ⟨"", "", "true", "", "all"⟩ = DirGetResponse.status 500 :=
  ⟨rfl, rfl, rfl, rfl⟩

/-- C5 counterexample: the claim says an empty or absent filter set yields
zero file entries.  With the `file-filters` header absent (empty string),
`strings.Split("", ";")` produces the one-element slice containing the
empty string, which `filepath.Ext` matches for extensionless files: a
directory GET with `return-type: files` and no filter header returns the
extensionless file `README`. -/
theorem C5_absent_filter_matches_extensionless :
    dirHandlerGet "/srv/data" "srv/data" (StatRes.ok 1500000000000000000 4096)
      (FSNode.dir 1500000000000000000 4096
        [("README", FSNode.file 1500000000000000000 5)])
      ⟨"", "", "", "", "files"⟩
    = DirGetResponse.listing (element.mk "directory" "root" "/srv/data/" "" "" "" ""
        [element.mk "file" "README" "/srv/data/README" "1500000000000"
          "1500000000000" "5" "true" []]) :=
  rfl

/-- C5 amended: within one successful listing call, a directory child is
included iff the return type is "directories" or "all" (never subject to
the extension filter), and a file child is included iff the return type is
"files" or "all" and its extension is a member of the filter list; an
empty filter list yields zero file entries; but the boundary maps an absent
or empty `file-filters` header to the one-element list containing the empty
string, under which exactly the extensionless files match. -/
theorem C5_filter_semantics :
    (∀ (mt sz : Int) (entries : List (String × FSNode)) (path : String)
       (recursive : Bool) (filter : List String) (returnType : String)
       (name : String) (child : FSNode),
       (name, child) ∈ entries → returnType ≠ "" →
       (listDir (FSNode.dir mt sz entries) path recursive filter returnType).2 = none →
       ((isDirNode child = true →
          ((∃ e, e ∈ (listDir (FSNode.dir mt sz entries) path recursive filter returnType).1
              ∧ e.typ = "directory" ∧ e.name = name)
            ↔ (returnType = "directories" ∨ returnType = "all")))
        ∧ (isDirNode child = false →
          ((∃ e, e ∈ (listDir (FSNode.dir mt sz entries) path recursive filter returnType).1
              ∧ e.typ = "file" ∧ e.name = name)
            ↔ ((returnType = "files" ∨ returnType = "all")
                ∧ sliceContains filter (goExt name) = true)))))
    ∧ (∀ (mt sz : Int) (entries : List (String × FSNode)) (path : String)
        (recursive : Bool) (returnType : String) (e : element),
        e ∈ (listDir (FSNode.dir mt sz entries) path recursive [] returnType).1 →
        e.typ ≠ "file")
    ∧ goSplit "" ';' = [""] := by
  refine ⟨?_, ?_, rfl⟩
  · intro mt sz entries path recursive filter returnType name child hnc hrt hok
    have hchar : (listDir (FSNode.dir mt sz entries) path recursive filter returnType).1
        = emitAll path recursive filter returnType entries := by
      simp only [listDir] at hok ⊢
      rw [listLoop_ok_eq entries path recursive filter returnType [] hok, List.nil_append]
    constructor
    · intro hdir
      constructor
      · rintro ⟨e, he, htyp, _⟩
        rcases listDir_mem_shape (FSNode.dir mt sz entries) path recursive filter returnType e he
          with h1 | h2 | h3
        · rw [h1] at htyp
          exact absurd htyp (by simp [emptyElement, element.typ])
        · rcases h2.2.1 with h | h | h
          · exact Or.inl h
          · exact Or.inr h
          · exact absurd h hrt
        · obtain ⟨hf, _⟩ := h3
          rw [hf] at htyp
          exact absurd htyp (by simp)
      · intro hrtd
        refine ⟨element.mk "directory" name (cleanPath (path ++ "/" ++ name))
            (formatModTime (nodeModTime child)) (formatModTime (nodeModTime child))
            (formatInt (nodeSize child)) "true"
            (if recursive
              then (listDir child (cleanPath (path ++ "/" ++ name))
                      recursive filter returnType).1
              else []), ?_, rfl, rfl⟩
        rw [hchar]
        refine emitOne_mem_emitAll entries path recursive filter returnType
          (name, child) _ hnc ?_
        rcases hrtd with h | h <;>
          simp [emitOne, hdir, h, element.typ, element.name]
    · intro hfile
      constructor
      · rintro ⟨e, he, htyp, hname⟩
        rcases listDir_mem_shape (FSNode.dir mt sz entries) path recursive filter returnType e he
          with h1 | h2 | h3
        · rw [h1] at htyp
          exact absurd htyp (by simp [emptyElement, element.typ])
        · obtain ⟨hd, _⟩ := h2
          rw [hd] at htyp
          exact absurd htyp (by simp)
        · obtain ⟨_, _, hflt, hrts⟩ := h3
          refine ⟨?_, by rwa [hname] at hflt⟩
          rcases hrts with h | h | h
          · exact Or.inl h
          · exact Or.inr h
          · exact absurd h hrt
      · rintro ⟨hrtf, hflt⟩
        refine ⟨element.mk "file" name (cleanPath (path ++ "/" ++ name))
            (formatModTime (nodeModTime child)) (formatModTime (nodeModTime child))
            (formatInt (nodeSize child)) "true" [], ?_, rfl, rfl⟩
        rw [hchar]
        refine emitOne_mem_emitAll entries path recursive filter returnType
          (name, child) _ hnc ?_
        rcases hrtf with h | h <;>
          simp [emitOne, hfile, h, hflt, element.typ, element.name]
  · intro mt sz entries path recursive returnType e he hf
    rcases listDir_mem_shape (FSNode.dir mt sz entries) path recursive [] returnType e he
      with h1 | h2 | h3
    · rw [h1] at hf
      exact absurd hf (by simp [emptyElement, element.typ])
    · obtain ⟨hd, _⟩ := h2
      rw [hf] at hd
      exact absurd hd (by simp)
    · exact absurd h3.2.2.1 (by simp [sliceContains])

/-- C5 witness: a concrete flat listing of a root containing `sub` and
`a.txt` with filter `[".txt"]` and return type "all", instantiating the
directory clause of the theorem at the `sub` child. -/
theorem C5_filter_semantics_witness :
    ∃ e, e ∈ (listDir (FSNode.dir 1500000000000000000 4096
        [("sub", FSNode.dir 1500000000000000000 4096 []),
         ("a.txt", FSNode.file 1500000000000000000 7)])
        "/srv/data" false [".txt"] "all").1
      ∧ e.typ = "directory" ∧ e.name = "sub" :=
  ((C5_filter_semantics.1 1500000000000000000 4096
      [("sub", FSNode.dir 1500000000000000000 4096 []),
       ("a.txt", FSNode.file 1500000000000000000 7)]
      "/srv/data" false [".txt"] "all" "sub" (FSNode.dir 1500000000000000000 4096 [])
      (List.mem_cons_self _ _) (by decide) rfl).1 rfl).mpr (Or.inr rfl)

/-- C10 counterexample: the claim says that whenever stat on the target
fails, a GET carrying a usable `If-modified-since` value is answered 304.
The directory handler instead checks `exist(p)` first and answers 404 when
the target does not exist. -/
theorem C10_dir_enoent_gives_404 :
    dirHandlerGet "/srv/data" "srv/data/x" StatRes.enoent
      (FSNode.dir 1500000000000000000 4096 []) ⟨"123", "", "", "", ""⟩
    = DirGetResponse.status 404 :=
  rfl

/-- C10 amended: for a GET carrying `If-modified-since` value `t` not in
the empty/"false"/"none" set, on a request passing the containment check:
the file handler answers 200 iff the int64 product `s * 1000000` — `s`
being `strconv.ParseInt(t, 10, 64)`'s value with its error discarded (0 on
a syntax error, the clamped int64 bound on a range error), the product
wrapping around int64 — is strictly greater than the target's modification
time in nanoseconds, 304 otherwise, and 304 whenever stat fails; the
directory handler behaves the same except it answers 404 when the target
does not exist. -/
theorem C10_modified_since_behaviour (root frag : String) (stat : StatRes)
    (node : FSNode) (t : String)
    (h1 : t ≠ "") (h2 : t ≠ "false") (h3 : t ≠ "none")
    (hroot : isInRoot root (osPath frag) = true) :
    fileHandlerGet root frag stat ⟨t, "", ""⟩
      = FileGetResponse.status (match stat with
          | .ok l _ => if wrap64 (parseIntGo t * 1000000) > l then 200 else 304
          | .enoent => 304
          | .otherErr => 304)
    ∧ dirHandlerGet root frag stat node ⟨t, "", "", "", ""⟩
      = DirGetResponse.status (match stat with
          | .ok l _ => if wrap64 (parseIntGo t * 1000000) > l then 200 else 304
          | .enoent => 404
          | .otherErr => 304) := by
  constructor
  · cases stat with
    | ok l sz =>
      simp only [fileHandlerGet, hroot, Bool.not_true, modifiedSince]
      simp [h1, h2, h3, decide_eq_true_eq]
      split <;> rfl
    | enoent =>
      simp only [fileHandlerGet, hroot, Bool.not_true, modifiedSince]
      simp [h1, h2, h3]
    | otherErr =>
      simp only [fileHandlerGet, hroot, Bool.not_true, modifiedSince]
      simp [h1, h2, h3]
  · have hp : ¬ osPath frag = "" := osPath_ne_empty frag
    cases stat with
    | ok l sz =>
      simp only [dirHandlerGet, hroot, Bool.not_true, modifiedSince, existGo]
      simp [h1, h2, h3, hp, decide_eq_true_eq]
      split <;> rfl
    | enoent =>
      simp only [dirHandlerGet, hroot, Bool.not_true, modifiedSince, existGo]
      simp [h1, h2, h3, hp]
    | otherErr =>
      simp only [dirHandlerGet, hroot, Bool.not_true, modifiedSince, existGo]
      simp [h1, h2, h3, hp]

/-- C10 witness: a concrete conditional GET with `If-modified-since: 123`
against a target modified at 1.5e18 ns answers 304 on both handlers. -/
theorem C10_modified_since_behaviour_witness :
    fileHandlerGet "/srv/data" "srv/data/f" (StatRes.ok 1500000000000000000 7)
      ⟨"123", "", ""⟩ = FileGetResponse.status 304
    ∧ dirHandlerGet "/srv/data" "srv/data/f" (StatRes.ok 1500000000000000000 7)
        (FSNode.dir 1500000000000000000 4096 []) ⟨"123", "", "", "", ""⟩
      = DirGetResponse.status 304 := by
  have h := C10_modified_since_behaviour "/srv/data" "srv/data/f"
    (StatRes.ok 1500000000000000000 7) (FSNode.dir 1500000000000000000 4096 [])
    "123" (by decide) (by decide) (by decide) rfl
  exact ⟨h.1.trans rfl, h.2.trans rfl⟩

end NinjaCloud
